import Mathlib

/-!
Shallow embedding of the oute-tts-rs orchestration layer (src/model.rs,
src/interface.rs, src/prompt_processor.rs, src/default_speakers.rs) and
proofs about it.  External collaborators (llama tokenizer/engine, ONNX
audio decoder, file system) are modelled as explicit function parameters;
machine integers are modelled as Nat/Int with explicit wrapping where the
source casts; Rust panics and `Result` errors are modelled with explicit
sum types.
-/

namespace Oute

/-- Outcome of a Rust function whose only failure mode is a panic
(process abort): either it returns a value or it panics with a message. -/
inductive RustOutcome (α : Type) where
  | value (val : α)
  | aborted (msg : String)
deriving DecidableEq

/-- GenerationConfig from src/model.rs (lines 23-30).  The f32 fields are
modelled as exact rationals; `additional_gen_config` is never read by the
generation path and is omitted. -/
structure GenerationConfig where
  temperature : Rat
  repetition_penalty : Rat
  max_length : Nat
deriving DecidableEq

/-- Default GenerationConfig (src/model.rs lines 32-41). -/
def GenerationConfig.default : GenerationConfig :=
  { temperature := 8/10, repetition_penalty := 11/10, max_length := 4096 }

/-- The external llama tokenizer/engine as consumed by
GGUFModel::generate_stream, abstracted to a deterministic oracle:
`strToToken` models `model.str_to_token(prompt, AddBos::Always)`;
`sample k` models the token produced by `sampler.sample` at the k-th
loop iteration (the engine/sampler state evolution is folded into the
iteration index); `isEog` models `model.is_eog_token`; `tokenToBytes`
models `model.token_to_bytes(token, Special::Tokenize)`.  Failures of
the external engine itself (decode errors) are outside the repository's
code and are not modelled: the oracle is total. -/
structure Engine where
  strToToken : String → List Int
  sample : Nat → Int
  isEog : Int → Bool
  tokenToBytes : Int → List UInt8

/-- Observable calls issued to the inference engine's context:
`decode ts` is one `context.decode` of a batch holding tokens `ts` as
(token, position) pairs, and `clearKv` is `context.clear_kv_cache()`. -/
inductive EngineEvent where
  | decode (tokens : List (Int × Int))
  | clearKv
deriving DecidableEq

/-- Interpretation of `n as i32` for a Rust usize value `n`: wrap modulo
2^32 and read as two's complement. -/
def i32ofNat (n : Nat) : Int :=
  if n % 2 ^ 32 < 2 ^ 31 then (n % 2 ^ 32 : Nat) else (n % 2 ^ 32 : Nat) - 2 ^ 32

/-- Two's-complement wrap of an unbounded integer into the i32 range,
modelling Rust's release-mode overflow semantics of `n_cur += 1` on an
i32 (in debug builds the overflow panics instead; either way the value
max_length + 1 is never reached past i32::MAX, see the bound in the C3
theorem below). -/
def wrapI32 (x : Int) : Int :=
  if x % 2 ^ 32 < 2 ^ 31 then x % 2 ^ 32 else x % 2 ^ 32 - 2 ^ 32

theorem wrapI32_eq_self {x : Int} (h1 : -(2 ^ 31) ≤ x) (h2 : x < 2 ^ 31) :
    wrapI32 x = x := by
  simp only [wrapI32]
  split_ifs with h <;> omega

/-- Helper for utf8Lossy: is `b` a UTF-8 continuation byte (0x80..=0xBF)? -/
def isCont (b : UInt8) : Bool := 0x80 ≤ b && b ≤ 0xBF

/-- Length (≥ 1) of the byte sequence consumed at the head of `l` by
UTF-8 validation, and whether that sequence is valid, following Rust's
core::str validation (which drives String::from_utf8_lossy's maximal
subpart substitution). -/
def utf8SeqLen (l : List UInt8) : Nat × Bool :=
  match l with
  | [] => (1, false)
  | b :: rest =>
    if b ≤ 0x7F then (1, true)
    else if 0xC2 ≤ b && b ≤ 0xDF then
      match rest with
      | c :: _ => if isCont c then (2, true) else (1, false)
      | [] => (1, false)
    else if 0xE0 ≤ b && b ≤ 0xEF then
      -- range of the second byte depends on the leading byte
      let lo2 : UInt8 := if b = 0xE0 then 0xA0 else 0x80
      let hi2 : UInt8 := if b = 0xED then 0x9F else 0xBF
      match rest with
      | c :: rest2 =>
        if lo2 ≤ c && c ≤ hi2 then
          match rest2 with
          | d :: _ => if isCont d then (3, true) else (2, false)
          | [] => (2, false)
        else (1, false)
      | [] => (1, false)
    else if 0xF0 ≤ b && b ≤ 0xF4 then
      let lo2 : UInt8 := if b = 0xF0 then 0x90 else 0x80
      let hi2 : UInt8 := if b = 0xF4 then 0x8F else 0xBF
      match rest with
      | c :: rest2 =>
        if lo2 ≤ c && c ≤ hi2 then
          match rest2 with
          | d :: rest3 =>
            if isCont d then
              match rest3 with
              | e :: _ => if isCont e then (4, true) else (3, false)
              | [] => (3, false)
            else (2, false)
          | [] => (2, false)
        else (1, false)
      | [] => (1, false)
    else (1, false)

/-- Fuel-driven scan for utf8Lossy; the fuel is an upper bound on the
number of sequences (each step consumes at least one byte). -/
def utf8LossyGo : Nat → List UInt8 → List UInt8
  | _, [] => []
  | 0, _ => []
  | fuel + 1, l =>
    let (n, ok) := utf8SeqLen l
    (if ok then l.take n else [0xEF, 0xBF, 0xBD]) ++ utf8LossyGo fuel (l.drop n)

/-- Model of `String::from_utf8_lossy(bytes).to_string().into_bytes()`:
valid UTF-8 sequences pass through unchanged, each maximal invalid
subpart is replaced by U+FFFD (bytes EF BF BD). -/
def utf8Lossy (l : List UInt8) : List UInt8 := utf8LossyGo l.length l

/-- Model of `bytes.chunks(4).map(|c| c.try_into().unwrap_or([0;4]))`
from src/model.rs lines 209-215: full 4-byte chunks pass through, a
short trailing chunk becomes [0,0,0,0].  Each quadruple is the
little-endian byte pattern handed to `f32::from_le_bytes`. -/
def chunks4 : List UInt8 → List (UInt8 × UInt8 × UInt8 × UInt8)
  | a :: b :: c :: d :: rest => (a, b, c, d) :: chunks4 rest
  | [] => []
  | _ => [(0, 0, 0, 0)]

/-- ModelOutput from src/model.rs lines 49-52, with the f32 samples kept
as their little-endian byte patterns. -/
structure ModelOutput where
  audio : List (UInt8 × UInt8 × UInt8 × UInt8)
  sr : Nat
deriving DecidableEq

/-- State threaded through the generation while-loop of
GGUFModel::generate_stream (src/model.rs lines 186-206). -/
structure LoopOut where
  nCur : Int
  text : List UInt8
  generated : List Int
  events : List EngineEvent
deriving DecidableEq

/-- One-to-one embedding of the while-loop of generate_stream
(src/model.rs lines 186-206).  The loop condition is
`n_cur <= max_length as i32` on an i32 cursor: the increment
`n_cur += 1` wraps on overflow (wrapI32), so as long as no wrap occurs
each iteration increments the cursor by exactly one and running the
recursion with fuel `(max_length as i32 + 1 - n_cur).toNat` makes
`fuel > 0` equivalent to the loop condition at every step; a wrap
(possible only when the cursor passes i32::MAX, i.e. max_length is
2^31 - 1) makes the real loop cycle instead of exiting, which is why
the C3 theorem below requires max_length ≤ 2^31 - 2.  The cache-clear
test `n_cur % 1024 == 0` runs on the post-increment value; Rust's
truncated `%` and the embedding's euclidean `%` agree on a zero test
(both mean 1024 divides n_cur).  `k` counts sampler calls; the
`generated` field is ghost bookkeeping recording the ids the loop
appended (the Rust code only keeps their decoded bytes). -/
def genLoop (eng : Engine) (fuel : Nat) (k : Nat) (st : LoopOut) : LoopOut :=
  match fuel with
  | 0 => st
  | fuel + 1 =>
    let t := eng.sample k
    if eng.isEog t then st
    else
      let bytes := utf8Lossy (eng.tokenToBytes t)
      let newEvents :=
        [EngineEvent.decode [(t, st.nCur)]] ++
          (if wrapI32 (st.nCur + 1) % 1024 = 0 then [EngineEvent.clearKv] else [])
      genLoop eng fuel (k + 1)
        { nCur := wrapI32 (st.nCur + 1)
          text := st.text ++ bytes
          generated := st.generated ++ [t]
          events := st.events ++ newEvents }

instance {ε α : Type} [DecidableEq ε] [DecidableEq α] : DecidableEq (Except ε α) :=
  fun a b =>
    match a, b with
    | .ok x, .ok y => decidable_of_iff (x = y) (by simp)
    | .error e, .error f => decidable_of_iff (e = f) (by simp)
    | .ok _, .error _ => isFalse (by simp)
    | .error _, .ok _ => isFalse (by simp)

/-- Result of a generate_stream call: the returned value (Ok ModelOutput
or the bail error message), the sequence of calls issued to the engine
context, and ghost fields for the tokenized prompt, the generated ids
and the final position cursor. -/
structure GenResult where
  result : Except String ModelOutput
  events : List EngineEvent
  promptTokens : List Int
  generated : List Int
  finalCursor : Int
deriving DecidableEq

/-- Embedding of GGUFModel::generate_stream (src/model.rs lines
157-218): tokenize the prompt with BOS; bail with the prompt-too-long
message when `tokens_list.len() >= config.max_length` before touching
the engine context; otherwise prefill the whole prompt as one decode
batch (positions 0..len-1; `LlamaBatch::new(1024, 1)` bounds the batch
to 1024 tokens, a longer prompt makes `batch.add` fail), then run the
sampling loop, and return a ModelOutput whose samples are the 4-byte
chunks of the lossily re-encoded generated text at sample rate 16000. -/
def generate_stream (eng : Engine) (prompt : String) (config : GenerationConfig) :
    GenResult :=
  let tokens_list := eng.strToToken prompt
  if tokens_list.length ≥ config.max_length then
    { result := .error "the prompt is too long, it has more tokens than max_length"
      events := []
      promptTokens := tokens_list
      generated := []
      finalCursor := 0 }
  else if tokens_list.length > 1024 then
    { result := .error "batch add error: the batch capacity of 1024 tokens is exceeded"
      events := []
      promptTokens := tokens_list
      generated := []
      finalCursor := 0 }
  else
    let prefill := EngineEvent.decode
      (tokens_list.enum.map fun p => (p.2, (p.1 : Int)))
    let n0 : Int := tokens_list.length
    let m32 : Int := i32ofNat config.max_length
    let final := genLoop eng (m32 + 1 - n0).toNat 0
      { nCur := n0, text := [], generated := [], events := [prefill] }
    { result := .ok { audio := chunks4 final.text, sr := 16000 }
      events := final.events
      promptTokens := tokens_list
      generated := final.generated
      finalCursor := final.nCur }

/-- Positions of all tokens submitted to `context.decode` in a list of
engine events. -/
def decodePositions (evs : List EngineEvent) : List Int :=
  evs.flatMap fun e =>
    match e with
    | .decode ts => ts.map Prod.snd
    | .clearKv => []

/-- Stub engine for the length-bound behavior: two prompt tokens, fresh
sampled ids 50, 51, 52, ..., never an end-of-generation token, empty
token bytes. -/
def stubNoEog : Engine :=
  { strToToken := fun _ => [10, 11]
    sample := fun k => 50 + k
    isEog := fun _ => false
    tokenToBytes := fun _ => [] }

/-- Stub engine that emits the end-of-generation token 99 immediately;
the prompt tokenizes (BOS included) to [1, 2]. -/
def stubEog : Engine :=
  { strToToken := fun _ => [1, 2]
    sample := fun _ => 99
    isEog := fun t => t == 99
    tokenToBytes := fun _ => [97] }

theorem decodePositions_append (a b : List EngineEvent) :
    decodePositions (a ++ b) = decodePositions a ++ decodePositions b := by
  simp [decodePositions]

theorem i32ofNat_of_lt {n : Nat} (h : n < 2 ^ 31) : i32ofNat n = n := by
  have h32 : n % 2 ^ 32 = n := Nat.mod_eq_of_lt (lt_trans h (by norm_num))
  simp only [i32ofNat, h32]
  rw [if_pos h]

/-- Behavior of the generation while-loop under an engine that never
emits the end-of-generation token, on a range where the i32 cursor
cannot overflow: the cursor advances by exactly the fuel, one id is
appended per step, and every new decode position lies in
[initial cursor, initial cursor + fuel). -/
theorem genLoop_noEog (eng : Engine) (hnoeog : ∀ k, eng.isEog (eng.sample k) = false) :
    ∀ (fuel k : Nat) (st : LoopOut),
      0 ≤ st.nCur → st.nCur + fuel ≤ 2 ^ 31 - 1 →
      (genLoop eng fuel k st).nCur = st.nCur + fuel ∧
      (genLoop eng fuel k st).generated.length = st.generated.length + fuel ∧
      (∀ p ∈ decodePositions (genLoop eng fuel k st).events,
        p ∈ decodePositions st.events ∨ (st.nCur ≤ p ∧ p < st.nCur + fuel)) := by
  intro fuel
  induction fuel with
  | zero =>
    intro k st hlo hhi
    refine ⟨by simp [genLoop], by simp [genLoop], ?_⟩
    intro p hp
    simp only [genLoop] at hp
    exact Or.inl hp
  | succ fuel ih =>
    intro k st hlo hhi
    have hng := hnoeog k
    have hwrap : wrapI32 (st.nCur + 1) = st.nCur + 1 :=
      wrapI32_eq_self (by omega) (by push_cast at hhi; omega)
    have hstep : genLoop eng (fuel + 1) k st = genLoop eng fuel (k + 1)
        { nCur := st.nCur + 1
          text := st.text ++ utf8Lossy (eng.tokenToBytes (eng.sample k))
          generated := st.generated ++ [eng.sample k]
          events := st.events ++
            ([EngineEvent.decode [(eng.sample k, st.nCur)]] ++
              (if (st.nCur + 1) % 1024 = 0 then [EngineEvent.clearKv] else [])) } := by
      simp only [genLoop, hng, Bool.false_eq_true, if_false, hwrap]
    rw [hstep]
    obtain ⟨ih1, ih2, ih3⟩ := ih (k + 1)
      { nCur := st.nCur + 1
        text := st.text ++ utf8Lossy (eng.tokenToBytes (eng.sample k))
        generated := st.generated ++ [eng.sample k]
        events := st.events ++
          ([EngineEvent.decode [(eng.sample k, st.nCur)]] ++
            (if (st.nCur + 1) % 1024 = 0 then [EngineEvent.clearKv] else [])) }
      (by dsimp only; omega) (by dsimp only; push_cast at hhi ⊢; omega)
    refine ⟨by rw [ih1]; push_cast; ring, by rw [ih2]; simp; omega, ?_⟩
    intro p hp
    rcases ih3 p hp with hmem | ⟨h1, h2⟩
    · have hsplit : decodePositions (st.events ++
          ([EngineEvent.decode [(eng.sample k, st.nCur)]] ++
            (if (st.nCur + 1) % 1024 = 0 then [EngineEvent.clearKv] else []))) =
          decodePositions st.events ++ [st.nCur] := by
        split_ifs <;> simp [decodePositions]
      rw [hsplit] at hmem
      rcases List.mem_append.mp hmem with hold | hnew
      · exact Or.inl hold
      · right
        have : p = st.nCur := by simpa using hnew
        subst this
        constructor <;> omega
    · right
      dsimp only at h1 h2
      constructor <;> omega

/-- Claim C1: the spec says a terminating generation call returns the
full (prompt + generated) token-id sequence.  The code does not: at a
concrete engine whose prompt tokenizes to [1, 2] and which emits the
end-of-generation token immediately, the prompt + generated id sequence
is [1, 2], yet generate_stream returns an Ok ModelOutput holding f32
audio samples decoded from the generated text bytes (here empty, sample
rate 16000) — no token-id sequence is returned at all, although the
caller InterfaceGGUF::generate consumes the return value as the full id
sequence. -/
theorem generate_returns_audio_not_token_ids :
    (generate_stream stubEog "hi" ⟨1, 1, 10⟩).promptTokens ++
        (generate_stream stubEog "hi" ⟨1, 1, 10⟩).generated = [1, 2] ∧
    (generate_stream stubEog "hi" ⟨1, 1, 10⟩).result =
      .ok { audio := [], sr := 16000 } := by
  constructor <;> decide

/-- Claim C2: if the tokenized prompt's token count is at least
config.max_length, generate_stream fails with the prompt-too-long error
and issues no call at all to the inference engine context (no prefill,
no decode, no cache clear). -/
theorem generate_fails_before_engine_calls
    (eng : Engine) (prompt : String) (config : GenerationConfig)
    (h : (eng.strToToken prompt).length ≥ config.max_length) :
    (generate_stream eng prompt config).result =
      .error "the prompt is too long, it has more tokens than max_length" ∧
    (generate_stream eng prompt config).events = [] := by
  simp only [generate_stream, ge_iff_le, if_pos h]
  refine ⟨?_, ?_⟩ <;> trivial

/-- Witness for C2 at a concrete engine: the prompt tokenizes to 2
tokens, max_length is 2, and generate issues no engine call. -/
theorem generate_fails_before_engine_calls_witness :
    (stubEog.strToToken "hi").length ≥ 2 ∧
    (generate_stream stubEog "hi" ⟨1, 1, 2⟩).events = [] :=
  ⟨by decide, (generate_fails_before_engine_calls stubEog "hi" ⟨1, 1, 2⟩ (by decide)).2⟩

/-- Counterexample to claim C3 as stated: with a never-EOG stub engine,
a 2-token prompt and max_length = 3, the loop stops with the position
cursor at 4, strictly beyond max_length — it does not stop when the
cursor reaches max_length, and the total token count does exceed
max_length. -/
theorem generate_exceeds_max_length_counterexample :
    (generate_stream stubNoEog "x" ⟨1, 1, 3⟩).finalCursor = 4 ∧
    ¬ (generate_stream stubNoEog "x" ⟨1, 1, 3⟩).finalCursor ≤ (3 : Int) := by
  constructor <;> decide

/-- Claim C3 (amended): for a prompt shorter than max_length (and within
the 1024-token batch capacity, with max_length at most 2^31 - 2 so that
the i32 cast is exact AND the i32 cursor cannot overflow at the final
increment to max_length + 1) and an engine that never emits EOG, the
loop stops exactly when the cursor reaches max_length + 1, the number
of generated tokens is max_length + 1 - prompt length, and every token
position ever submitted to decode is at most max_length (so the cursor
never exceeds max_length + 1). -/
theorem generate_stops_at_max_length_plus_one
    (eng : Engine) (prompt : String) (config : GenerationConfig)
    (hlen : (eng.strToToken prompt).length < config.max_length)
    (hbatch : (eng.strToToken prompt).length ≤ 1024)
    (hm : config.max_length ≤ 2 ^ 31 - 2)
    (hnoeog : ∀ k, eng.isEog (eng.sample k) = false) :
    (generate_stream eng prompt config).finalCursor = (config.max_length : Int) + 1 ∧
    (generate_stream eng prompt config).generated.length +
        (eng.strToToken prompt).length = config.max_length + 1 ∧
    ∀ p ∈ decodePositions (generate_stream eng prompt config).events,
      p ≤ (config.max_length : Int) := by
  have hm' : config.max_length < 2 ^ 31 := by omega
  have hnot : ¬ ((eng.strToToken prompt).length ≥ config.max_length) := by omega
  have hnot2 : ¬ ((eng.strToToken prompt).length > 1024) := by omega
  simp only [generate_stream, ge_iff_le, if_neg hnot, if_neg hnot2, i32ofNat_of_lt hm']
  obtain ⟨g1, g2, g3⟩ := genLoop_noEog eng hnoeog
    (((config.max_length : Int) + 1 - (eng.strToToken prompt).length).toNat) 0
    { nCur := (eng.strToToken prompt).length
      text := []
      generated := []
      events := [EngineEvent.decode
        ((eng.strToToken prompt).enum.map fun p => (p.2, (p.1 : Int)))] }
    (by dsimp only; omega) (by dsimp only; omega)
  dsimp only at g1 g2
  refine ⟨by rw [g1]; omega,
    by rw [g2]; simp only [List.length_nil, Nat.zero_add]; omega, ?_⟩
  intro p hp
  rcases g3 p hp with hpre | ⟨hlow, hhigh⟩
  · have hpre' : ∃ i, (∃ x, (i, x) ∈ (eng.strToToken prompt).enum) ∧ (i : Int) = p := by
      simpa [decodePositions, List.map_map, Function.comp, List.mem_map] using hpre
    obtain ⟨i, ⟨x, hmemEnum⟩, hcast⟩ := hpre'
    have hget : (eng.strToToken prompt)[i]? = some x :=
      List.mk_mem_enum_iff_getElem?.mp hmemEnum
    obtain ⟨hlt, -⟩ := List.getElem?_eq_some.mp hget
    omega
  · dsimp only at hlow hhigh
    omega

/-- Witness for the amended C3 at a concrete stub engine: prompt of 2
tokens, max_length 3, never-EOG engine; the final cursor is 4. -/
theorem generate_stops_at_max_length_plus_one_witness :
    ((stubNoEog.strToToken "x").length < 3 ∧
      (stubNoEog.strToToken "x").length ≤ 1024 ∧
      3 ≤ 2 ^ 31 - 2 ∧
      ∀ k, stubNoEog.isEog (stubNoEog.sample k) = false) ∧
    (generate_stream stubNoEog "x" ⟨1, 1, 3⟩).finalCursor = (3 : Int) + 1 :=
  ⟨⟨by decide, by decide, by norm_num, fun _ => rfl⟩,
    (generate_stops_at_max_length_plus_one stubNoEog "x" ⟨1, 1, 3⟩
      (by decide) (by decide) (by norm_num) (fun _ => rfl)).1⟩

/-- One stage of a llama sampler chain, as far as the generation path
uses them.  `mirostatV2 seed tau eta` models `add_mirostat_v2`,
`temp t` models `add_temp`, and `penalties repetitionPenalty` models a
repetition/frequency-penalty stage (which the spec requires but the
code never constructs).  The f32 parameters are carried as the exact
rationals written in the source. -/
inductive SamplerStage where
  | mirostatV2 (seed : Nat) (tau : Rat) (eta : Rat)
  | temp (t : Rat)
  | penalties (repetitionPenalty : Rat)
deriving DecidableEq

/-- Sampling policy chain built by generate_stream (src/model.rs lines
182-184): `LlamaSampler::new(LlamaSamplerChainParams::default())?
.add_mirostat_v2(42, 5.0, 0.1).add_temp(config.temperature)`. -/
def buildSamplerChain (config : GenerationConfig) : List SamplerStage :=
  [.mirostatV2 42 5 (1/10), .temp config.temperature]

/-- Modelled from the spec: the sampling policy chain the spec
prescribes — repetition/frequency penalties (using the configured
repetition_penalty, penalizing already-emitted ids) first, then
temperature scaling. -/
def specSamplerChain (config : GenerationConfig) : List SamplerStage :=
  [.penalties config.repetition_penalty, .temp config.temperature]

/-- Counterexample to claim C4 as stated: at the default config the
chain built by the code differs from the spec's penalties-then-
temperature chain (its first stage is a mirostat-v2 stage, not a
penalty stage), and the chain built by the code is identical for two
configs that differ only in repetition_penalty — the configured
repetition penalty is never used. -/
theorem sampler_chain_counterexample :
    buildSamplerChain GenerationConfig.default ≠
      specSamplerChain GenerationConfig.default ∧
    buildSamplerChain { temperature := 8/10, repetition_penalty := 11/10, max_length := 4096 } =
      buildSamplerChain { temperature := 8/10, repetition_penalty := 99, max_length := 4096 } := by
  constructor
  · intro h
    simp [buildSamplerChain, specSamplerChain] at h
  · rfl

/-- Claim C4 (amended): for every generation config the sampling chain
is built in the fixed order mirostat-v2 (seed 42, tau 5.0, eta 0.1)
first, then temperature scaling with the configured temperature; no
repetition/frequency-penalty stage is built and the chain does not
depend on the configured repetition_penalty. -/
theorem sampler_chain_is_mirostat_then_temp (config : GenerationConfig) :
    buildSamplerChain config = [.mirostatV2 42 5 (1/10), .temp config.temperature] ∧
    (∀ stage ∈ buildSamplerChain config,
      ∀ p : Rat, stage ≠ SamplerStage.penalties p) ∧
    ∀ config' : GenerationConfig, config'.temperature = config.temperature →
      buildSamplerChain config' = buildSamplerChain config := by
  refine ⟨rfl, ?_, ?_⟩
  · intro stage hstage p
    simp only [buildSamplerChain, List.mem_cons, List.not_mem_nil, or_false] at hstage
    rcases hstage with h | h <;> subst h <;> simp
  · intro config' h
    simp [buildSamplerChain, h]

/-- Canonical audio-code token string for code id `i`: the template
string from special_tokens["audio_code"], which is "<|{}|>" with the
placeholder replaced by `i.to_string()` (src/prompt_processor.rs lines
29 and 46-48; the placeholder is an open brace followed by a close
brace). -/
def audioCodeString (i : Nat) : String := "<|" ++ toString i ++ "|>"

/-- HashMap::insert on an association list: replace the value at an
existing key, otherwise append the pair. -/
def insertReplace : List (Int × Int) → Int → Int → List (Int × Int)
  | [], k, v => [(k, v)]
  | (k', v') :: rest, k, v =>
    if k' = k then (k, v) :: rest else (k', v') :: insertReplace rest k v

/-- HashMap::get on an association list. -/
def lookupMap : List (Int × Int) → Int → Option Int
  | [], _ => none
  | (k', v') :: rest, k => if k' = k then some v' else lookupMap rest k

/-- Embedding of the construction loop of
PromptProcessor::get_audio_token_map (src/prompt_processor.rs lines
43-53), generalized to the first `n` code ids.  For each i in 0..n the
formatted audio-code string is run through the external tokenizer
`encode`; `none` models a tokenizer Err (which `.unwrap()` turns into a
panic) and `some []` makes the `get_ids()[0]` index panic — both are
modelled as an overall `none`.  Otherwise the FIRST id of the encoding
becomes the key mapped to code id i; a repeated key silently overwrites
the earlier entry. -/
def buildAudioTokenMap (encode : String → Option (List Int)) : Nat → Option (List (Int × Int))
  | 0 => some []
  | n + 1 =>
    match buildAudioTokenMap encode n with
    | none => none
    | some m =>
      match encode (audioCodeString n) with
      | none => none
      | some [] => none
      | some (t :: _) => some (insertReplace m t (n : Int))

/-- PromptProcessor::get_audio_token_map proper: the loop runs for code
ids 0..4100. -/
def get_audio_token_map (encode : String → Option (List Int)) :
    Option (List (Int × Int)) :=
  buildAudioTokenMap encode 4100

/-- Tokenizer stub on which every audio-code string tokenizes to TWO
ids, [7, 8]. -/
def twoIdEncode : String → Option (List Int) := fun _ => some [7, 8]

theorem buildAudioTokenMap_twoId (n : Nat) :
    buildAudioTokenMap twoIdEncode (n + 1) = some [(7, (n : Int))] := by
  induction n with
  | zero => rfl
  | succ n ih =>
    have step : buildAudioTokenMap twoIdEncode (n + 1 + 1) =
        (match buildAudioTokenMap twoIdEncode (n + 1) with
         | none => none
         | some m =>
           match twoIdEncode (audioCodeString (n + 1)) with
           | none => none
           | some [] => none
           | some (t :: _) => some (insertReplace m t ((n + 1 : Nat) : Int))) := rfl
    rw [step, ih]
    simp [twoIdEncode, insertReplace]

/-- Counterexample to claim C5 as stated: on a tokenizer for which no
audio-code string tokenizes to exactly one id (every one yields the two
ids [7, 8]), construction does NOT fail — it succeeds, silently keeping
only the first id and overwriting the entry 4099 times, leaving the
single-entry map [(7, 4099)], which is not a bijection on [0, 4100). -/
theorem audio_token_map_counterexample :
    (twoIdEncode (audioCodeString 0) = some [7, 8] ∧
      ([7, 8] : List Int).length ≠ 1) ∧
    get_audio_token_map twoIdEncode = some [(7, 4099)] :=
  ⟨⟨rfl, by decide⟩, buildAudioTokenMap_twoId 4099⟩

theorem lookup_insertReplace (m : List (Int × Int)) (k v t : Int) :
    lookupMap (insertReplace m k v) t = if k = t then some v else lookupMap m t := by
  induction m with
  | nil => simp [insertReplace, lookupMap]
  | cons kv rest ih =>
    obtain ⟨k', v'⟩ := kv
    by_cases hk : k' = k
    · subst hk
      by_cases ht : k' = t <;> simp [insertReplace, lookupMap, ht]
    · by_cases ht : k' = t <;> by_cases ht2 : k = t <;>
        simp_all [insertReplace, lookupMap]

theorem buildAudioTokenMap_none_iff (encode : String → Option (List Int)) (N : Nat) :
    buildAudioTokenMap encode N = none ↔
      ∃ i < N, encode (audioCodeString i) = none ∨
        encode (audioCodeString i) = some [] := by
  induction N with
  | zero => simp [buildAudioTokenMap]
  | succ N ih =>
    constructor
    · intro h
      rcases hb : buildAudioTokenMap encode N with _ | m
      · obtain ⟨i, hi, hbad⟩ := ih.mp hb
        exact ⟨i, by omega, hbad⟩
      · rcases he : encode (audioCodeString N) with _ | ts
        · exact ⟨N, by omega, Or.inl he⟩
        · rcases ts with _ | ⟨t, ts⟩
          · exact ⟨N, by omega, Or.inr he⟩
          · simp [buildAudioTokenMap, hb, he] at h
    · rintro ⟨i, hi, hbad⟩
      by_cases hiN : i < N
      · have hnone : buildAudioTokenMap encode N = none := ih.mpr ⟨i, hiN, hbad⟩
        simp [buildAudioTokenMap, hnone]
      · have hieq : i = N := by omega
        subst hieq
        rcases hb : buildAudioTokenMap encode i with _ | m
        · simp [buildAudioTokenMap, hb]
        · rcases hbad with he | he <;> simp [buildAudioTokenMap, hb, he]

theorem buildAudioTokenMap_injective_bijection
    (encode : String → Option (List Int)) (N : Nat) (g : Nat → Int)
    (hf : ∀ i < N, ∃ ts, encode (audioCodeString i) = some (g i :: ts))
    (hinj : ∀ i j, i < N → j < N → g i = g j → i = j) :
    ∃ m, buildAudioTokenMap encode N = some m ∧
      (∀ i < N, lookupMap m (g i) = some (i : Int)) ∧
      (∀ t c, lookupMap m t = some c → ∃ i, i < N ∧ t = g i ∧ c = (i : Int)) := by
  induction N with
  | zero =>
    refine ⟨[], rfl, fun i hi => absurd hi (by omega), fun t c h => ?_⟩
    simp [lookupMap] at h
  | succ N ih =>
    obtain ⟨m, hm, hfwd, hrev⟩ :=
      ih (fun i hi => hf i (by omega)) (fun i j hi hj => hinj i j (by omega) (by omega))
    obtain ⟨ts, hts⟩ := hf N (by omega)
    refine ⟨insertReplace m (g N) (N : Int), ?_, ?_, ?_⟩
    · simp [buildAudioTokenMap, hm, hts]
    · intro i hi
      rw [lookup_insertReplace]
      by_cases hgi : g N = g i
      · have hNi : N = i := hinj N i (by omega) (by omega) hgi
        subst hNi
        rw [if_pos rfl]
      · rw [if_neg hgi]
        have hiN : i ≠ N := fun h => hgi (by rw [h])
        exact hfwd i (by omega)
    · intro t c hl
      rw [lookup_insertReplace] at hl
      by_cases hgt : g N = t
      · rw [if_pos hgt] at hl
        exact ⟨N, by omega, hgt.symm, by injection hl with h; exact h.symm⟩
      · rw [if_neg hgt] at hl
        obtain ⟨i, hi, h1, h2⟩ := hrev t c hl
        exact ⟨i, by omega, h1, h2⟩

/-- Claim C5 (amended): get_audio_token_map is the 4100-step instance of
the construction loop; the construction panics exactly when some code id
in [0, N) fails to tokenize or tokenizes to ZERO ids (a multi-id
tokenization is silently accepted, its first id is used); and only when
the first ids of the 4100 encodings are pairwise distinct is the
resulting map a bijection — every code id maps to its first token id and
every mapped token id maps back to exactly that code id. -/
theorem audio_token_map_properties :
    (∀ encode : String → Option (List Int),
      get_audio_token_map encode = buildAudioTokenMap encode 4100) ∧
    (∀ (encode : String → Option (List Int)) (N : Nat),
      buildAudioTokenMap encode N = none ↔
        ∃ i < N, encode (audioCodeString i) = none ∨
          encode (audioCodeString i) = some []) ∧
    (∀ (encode : String → Option (List Int)) (N : Nat) (g : Nat → Int),
      (∀ i < N, ∃ ts, encode (audioCodeString i) = some (g i :: ts)) →
      (∀ i j, i < N → j < N → g i = g j → i = j) →
      ∃ m, buildAudioTokenMap encode N = some m ∧
        (∀ i < N, lookupMap m (g i) = some (i : Int)) ∧
        (∀ t c, lookupMap m t = some c → ∃ i, i < N ∧ t = g i ∧ c = (i : Int))) :=
  ⟨fun _ => rfl, buildAudioTokenMap_none_iff, buildAudioTokenMap_injective_bijection⟩

/-- Concrete injective tokenizer stub: each string maps to the single id
given by the code point of its third character (so "<|0|>" ↦ 48,
"<|1|>" ↦ 49, "<|2|>" ↦ 50). -/
def enc3 : String → Option (List Int) :=
  fun s => some [((s.data.getD 2 ' ').toNat : Int)]

/-- Witness for C5's amended theorem at the concrete injective stub with
N = 3: construction succeeds and the round trip holds. -/
theorem audio_token_map_properties_witness :
    (∀ i < 3, ∃ ts, enc3 (audioCodeString i) = some (((48 + i : Nat) : Int) :: ts)) ∧
    ∃ m, buildAudioTokenMap enc3 3 = some m ∧ lookupMap m 50 = some 2 := by
  have h1 : ∀ i < 3, ∃ ts, enc3 (audioCodeString i) = some (((48 + i : Nat) : Int) :: ts) := by
    intro i hi
    interval_cases i <;> exact ⟨[], rfl⟩
  refine ⟨h1, ?_⟩
  obtain ⟨m, hm, hfwd, -⟩ :=
    audio_token_map_properties.2.2 enc3 3 (fun i => ((48 + i : Nat) : Int)) h1
      (by intro i j hi hj h; dsimp only at h; omega)
  refine ⟨m, hm, ?_⟩
  have h2 := hfwd 2 (by norm_num)
  simpa using h2

/-- Rust String::to_lowercase restricted to its ASCII action (the
inputs reasoned about below are ASCII): 'A'..'Z' shift by 32, all other
characters unchanged. -/
def asciiLower (c : Char) : Char :=
  if 65 ≤ c.toNat ∧ c.toNat ≤ 90 then Char.ofNat (c.toNat + 32) else c

/-- Debug ({:?}) rendering of a Vec<String> as used in the
unsupported-language panic message. -/
def debugFmtStrList (l : List String) : String :=
  "[" ++ String.intercalate ", " (l.map fun s => "\"" ++ s ++ "\"") ++ "]"

/-- Scan implementing `Regex::new(r"\d+(\.\d+)?").replace_all(text, f)`
where `f` is the number_to_words closure: each maximal digit run,
optionally followed by a decimal point and a further digit run, is
replaced by `nw` of the matched text; everything else passes through.
The fuel is an upper bound on steps; every step consumes at least one
character, so fuel = input length makes the exhaustion case dead. -/
def scanNumbersGo (nw : String → String) : Nat → List Char → List Char
  | _, [] => []
  | 0, l => l
  | fuel + 1, c :: cs =>
    if c.isDigit then
      let intRun := c :: cs.takeWhile Char.isDigit
      let afterInt := cs.dropWhile Char.isDigit
      match afterInt with
      | '.' :: d :: rest2 =>
        if d.isDigit then
          let frac := d :: rest2.takeWhile Char.isDigit
          let afterFrac := rest2.dropWhile Char.isDigit
          (nw (String.mk (intRun ++ '.' :: frac))).data ++ scanNumbersGo nw fuel afterFrac
        else
          (nw (String.mk intRun)).data ++ scanNumbersGo nw fuel afterInt
      | _ =>
        (nw (String.mk intRun)).data ++ scanNumbersGo nw fuel afterInt
    else
      c :: scanNumbersGo nw fuel cs

/-- Scan implementing `str::replace(needle, to)`: leftmost
non-overlapping occurrences of `needle` are replaced by `to`.  Fuel as
in scanNumbersGo; `needle` is always one of the two nonempty pattern
literals below, so each step consumes at least one character. -/
def strReplaceGo (needle repl : List Char) : Nat → List Char → List Char
  | _, [] => []
  | 0, l => l
  | fuel + 1, c :: cs =>
    if needle.isPrefixOf (c :: cs) then
      repl ++ strReplaceGo needle repl fuel ((c :: cs).drop needle.length)
    else
      c :: strReplaceGo needle repl fuel cs

/-- str::replace on char lists.  Rust's empty pattern matches at every
boundary; both patterns used by process_text are nonempty, so the empty
case is modelled as the identity. -/
def strReplace (s needle repl : List Char) : List Char :=
  if needle.isEmpty then s else strReplaceGo needle repl s.length s

/-- The ten characters of the raw pattern string regex
`[-_/,\.\\]` — which `process_text` passes to `str::replace` LITERALLY
(it calls `.replace(&Regex::new(..).to_string(), " ")`, and
`Regex::to_string` returns the pattern source, so no character class is
ever applied). -/
def sepPatternChars : List Char :=
  ['[', '-', '_', '/', ',', '\\', '.', '\\', '\\', ']']

/-- The eight characters of the raw pattern string regex `[^a-z\s]`,
likewise used as a literal needle. -/
def nonLetterPatternChars : List Char :=
  ['[', '^', 'a', '-', 'z', '\\', 's', ']']

/-- Rust `text.split(" ")` on char lists: split on each single space,
KEEPING empty fragments (so "" yields [""] and "a  b" yields
["a", "", "b"]). -/
def splitOnSpace : List Char → List (List Char)
  | [] => [[]]
  | ' ' :: cs => [] :: splitOnSpace cs
  | c :: cs =>
    match splitOnSpace cs with
    | [] => [[c]]
    | w :: ws => (c :: w) :: ws

/-- Embedding of PromptProcessor::process_text (src/prompt_processor.rs
lines 55-73).  `number_to_words` stands for the closure
`|s| number_to_words(&s, None).unwrap_or_default()` whose implementation
(crate::utils) is not part of the generation source; every theorem below
holds for an arbitrary such function.  Both unsupported-language
branches are Rust `panic!` calls, modelled as `.aborted`.  The two
`.replace` calls receive the PATTERN STRINGS of the regexes as literal
needles (see sepPatternChars), and the final `split(" ")` keeps empty
fragments. -/
def process_text (languages : List String) (number_to_words : String → String)
    (text language : String) : RustOutcome (List String) :=
  if ¬ languages.contains language then
    .aborted ("Language " ++ language ++ " not supported, supported languages are "
      ++ debugFmtStrList languages)
  else if language ≠ "en" then
    .aborted "Non-English languages are not supported yet."
  else
    let t1 := text.data.map asciiLower
    let t2 := scanNumbersGo number_to_words t1.length t1
    let t3 := strReplace t2 sepPatternChars [' ']
    let t4 := strReplace t3 nonLetterPatternChars []
    .value ((splitOnSpace t4).map String.mk)

/-- Claim C6: separator punctuation is NOT replaced by a space (the
regex is stringified and used as a literal `str::replace` needle, which
matches nothing in normal text), and empty fragments are NOT discarded
(`split(" ")` keeps them): for every number expansion function,
normalizing "a-b" returns ["a-b"] (claim expects ["a", "b"]) and
normalizing "" returns [""] (claim says the word list never contains an
empty string). -/
theorem process_text_keeps_separators (number_to_words : String → String) :
    process_text ["en"] number_to_words "a-b" "en" =
      .value ["a-b"] ∧
    process_text ["en"] number_to_words "" "en" = .value [""] := by
  constructor <;> rfl

/-- Counterexample to claim C7 as stated: at language "fr" the function
panics (aborting the process) with the unsupported-language message; it
does not return any value to the caller (its Rust return type
Vec<String> has no error channel at all). -/
theorem process_text_panic_counterexample :
    process_text ["en"] (fun _ => "") "hello" "fr" =
      .aborted "Language fr not supported, supported languages are [\"en\"]" ∧
    ∀ v : List String,
      process_text ["en"] (fun _ => "") "hello" "fr" ≠ .value v := by
  refine ⟨rfl, fun v h => ?_⟩
  rw [show process_text ["en"] (fun _ => "") "hello" "fr" =
      RustOutcome.aborted "Language fr not supported, supported languages are [\"en\"]"
      from rfl] at h
  exact RustOutcome.noConfusion h

/-- Claim C7 (amended): for every language other than "en",
process_text fails by PANICKING (a process abort via panic!, modelled
as `.aborted`) with an unsupported-language message — not by returning
a typed error to the caller. -/
theorem process_text_aborts_on_non_english
    (languages : List String) (number_to_words : String → String)
    (text language : String) (h : language ≠ "en") :
    ∃ msg, process_text languages number_to_words text language =
      .aborted msg := by
  by_cases hc : language ∈ languages
  · exact ⟨"Non-English languages are not supported yet.",
      by simp [process_text, hc, h]⟩
  · exact ⟨"Language " ++ language ++ " not supported, supported languages are "
        ++ debugFmtStrList languages,
      by simp [process_text, hc]⟩

/-- Witness for the amended C7 at a concrete input exercising the
second panic branch: "ja" is in the supported list but is not "en". -/
theorem process_text_aborts_on_non_english_witness :
    ("ja" : String) ≠ "en" ∧
    ∃ msg, process_text ["en", "ja"] (fun _ => "") "hi" "ja" = .aborted msg :=
  ⟨by decide,
    process_text_aborts_on_non_english ["en", "ja"] (fun _ => "") "hi" "ja" (by decide)⟩

/-- Truncation toward zero of a rational, the rounding used by Rust
float-to-integer `as` casts. -/
def ratTrunc (q : Rat) : Int := if q < 0 then -⌊-q⌋ else ⌊q⌋

/-- Saturating `as i16` cast: Rust float→int casts truncate toward zero
and clamp to the target range. -/
def i16SatCast (q : Rat) : Int := max (-32768) (min 32767 (ratTrunc q))

/-- The sample conversion of ModelOutput::save (src/interface.rs line
46): `(sample * 32767.0) as i16`, with the f32 arithmetic modelled
exactly over the rationals (exact for every sample value used in the
theorems below). -/
def sampleToI16 (s : Rat) : Int := i16SatCast (s * 32767)

/-- Little-endian byte pair of a 16-bit two's-complement value. -/
def le16 (v : Int) : List UInt8 :=
  let u := (v % 65536).toNat
  [UInt8.ofNat (u % 256), UInt8.ofNat (u / 256)]

/-- Little-endian bytes of a u32 value (wrapping). -/
def le32 (n : Nat) : List UInt8 :=
  let u := n % 2 ^ 32
  [UInt8.ofNat (u % 256), UInt8.ofNat (u / 256 % 256),
   UInt8.ofNat (u / 65536 % 256), UInt8.ofNat (u / 16777216 % 256)]

/-- Bytes of b"RIFF". -/
def tagRIFF : List UInt8 := [0x52, 0x49, 0x46, 0x46]

/-- Bytes of b"WAVE". -/
def tagWAVE : List UInt8 := [0x57, 0x41, 0x56, 0x45]

/-- Bytes of b"fmt " (with the trailing space). -/
def tagFmt : List UInt8 := [0x66, 0x6D, 0x74, 0x20]

/-- Bytes of b"data". -/
def tagData : List UInt8 := [0x64, 0x61, 0x74, 0x61]

/-- Modelled from the spec: the canonical 44-byte RIFF/WAVE header that
hound's WavWriter emits for the WavSpec of src/interface.rs lines 36-41
(16-bit integer PCM, format tag 1, one channel, the given sample rate),
following the bit-level layout of spec section 6: RIFF, chunk size
36 + data, WAVE, fmt , subchunk size 16, format tag, channels, sample
rate, byte rate, block align, bits per sample, data, data size; all
fields little-endian. -/
def wavHeader16 (sr : Nat) (numSamples : Nat) : List UInt8 :=
  tagRIFF ++ le32 (36 + 2 * numSamples) ++ tagWAVE ++
  tagFmt ++ le32 16 ++ le16 1 ++ le16 1 ++ le32 sr ++
  le32 (sr * 2) ++ le16 2 ++ le16 16 ++ tagData ++ le32 (2 * numSamples)

/-- The byte stream produced by ModelOutput::save's hound writer for a
nonempty sample list: the 16-bit header followed by each sample
converted by `(sample * 32767.0) as i16`, little-endian. -/
def wav16Bytes (samples : List Rat) (sr : Nat) : List UInt8 :=
  wavHeader16 sr samples.length ++ samples.flatMap fun s => le16 (sampleToI16 s)

/-- Embedding of ModelOutput::save (src/interface.rs lines 28-51) as
the bytes written to the output file: empty audio writes nothing (the
function logs and returns Ok early), otherwise the 16-bit mono PCM WAV
stream. -/
def save (audio : List Rat) (sr : Nat) : Option (List UInt8) :=
  if audio.isEmpty then none else some (wav16Bytes audio sr)

/-- Embedding of the OTHER WAV encoder in the repository,
ModelOutput::to_wav_bytes (src/model.rs lines 59-86): format tag 3
(IEEE float), one channel, 32 bits per sample, each f32 sample written
as its four little-endian bytes (samples carried as byte quadruples). -/
def to_wav_bytes (audio : List (UInt8 × UInt8 × UInt8 × UInt8)) (sr : Nat) :
    List UInt8 :=
  tagRIFF ++ le32 (36 + 4 * audio.length) ++ tagWAVE ++
  tagFmt ++ le32 16 ++ le16 3 ++ le16 1 ++ le32 sr ++
  le32 (sr * 4) ++ le16 4 ++ le16 32 ++ tagData ++ le32 (4 * audio.length) ++
  audio.flatMap fun q => [q.1, q.2.1, q.2.2.1, q.2.2.2]

theorem wavHeader16_length (sr n : Nat) : (wavHeader16 sr n).length = 44 := by
  simp [wavHeader16, tagRIFF, tagWAVE, tagFmt, tagData, le32, le16]

/-- Counterexample to claim C8 as stated: at sample 1/2 the emitted
16-bit value is 16383 (truncation of 16383.5), not round(0.5 * 32767) =
16384 — the cast `as i16` truncates toward zero instead of rounding;
the bytes after the 44-byte header are FF 3F, not the 00 40 of the
rounded value. -/
theorem wav16_truncates_not_rounds :
    sampleToI16 (1/2) = 16383 ∧
    round ((1/2 : Rat) * 32767) = 16384 ∧
    (save [1/2] 24000).map (fun l => l.drop 44) = some [0xFF, 0x3F] ∧
    le16 16384 = [0x00, 0x40] := by
  have hfl : ⌊(32767 : ℚ) / 2⌋ = 16383 := by
    rw [Int.floor_eq_iff]
    norm_num
  have h1 : sampleToI16 (1/2) = 16383 := by
    have hq : ((1 : ℚ)/2) * 32767 = 32767/2 := by ring
    rw [sampleToI16, hq, i16SatCast, ratTrunc, if_neg (by norm_num), hfl]
    norm_num
  refine ⟨h1, by norm_num [round_eq], ?_, rfl⟩
  have hsave : save [(1 : ℚ)/2] 24000 = some (wav16Bytes [(1 : ℚ)/2] 24000) := by
    simp [save]
  rw [hsave]
  simp only [Option.map_some']
  have hdrop : (wav16Bytes [(1 : ℚ)/2] 24000).drop 44 =
      le16 (sampleToI16 ((1 : ℚ)/2)) := by
    have h44 : (wavHeader16 24000 (1 : Nat)).length = 44 := wavHeader16_length 24000 1
    have hnil : (wavHeader16 24000 (1 : Nat)).drop 44 = [] :=
      List.drop_eq_nil_of_le (by rw [h44])
    rw [wav16Bytes, List.drop_append_eq_append_drop]
    simp only [List.length_cons, List.length_nil, Nat.zero_add, hnil, h44]
    simp
  rw [hdrop, h1]
  rfl

theorem flatMap_le16_slice (samples : List Rat) :
    ∀ (i : Nat) (hi : i < samples.length),
      (((samples.flatMap fun s => le16 (sampleToI16 s)).drop (2 * i)).take 2) =
        le16 (sampleToI16 (samples.get ⟨i, hi⟩)) := by
  induction samples with
  | nil => intro i hi; simp at hi
  | cons s rest ih =>
    intro i hi
    rcases i with _ | i
    · simp [le16]
    · have h2 : 2 * (i + 1) = 2 * i + 1 + 1 := by ring
      simp only [List.flatMap_cons, le16, h2, List.drop_succ_cons, List.get_cons_succ]
      exact ih i (by simpa using hi)

/-- Claim C8 (amended): the 16-bit WAV path (ModelOutput::save in
src/interface.rs) emits, for sample i, the little-endian two's-
complement bytes of the saturating TRUNCATION of sample * 32767 (not
of its rounding), after a 44-byte header whose format tag is 1 (integer
PCM), channel count is 1 and sample-rate field is the given rate; and
it is not the only encoding implemented: model.rs's to_wav_bytes writes
the 32-bit IEEE-float layout (format tag 3, 32 bits per sample) — both
admissible encodings are present rather than exactly one canonical
one. -/
theorem wav_encoding_properties :
    (∀ (samples : List Rat) (sr : Nat), samples ≠ [] →
      save samples sr = some (wav16Bytes samples sr)) ∧
    (∀ (samples : List Rat) (sr : Nat) (i : Nat) (hi : i < samples.length),
      (((wav16Bytes samples sr).drop (44 + 2 * i)).take 2) =
        le16 (i16SatCast (samples.get ⟨i, hi⟩ * 32767))) ∧
    (∀ sr n : Nat, (wavHeader16 sr n).length = 44 ∧
      ((wavHeader16 sr n).drop 20).take 2 = le16 1 ∧
      ((wavHeader16 sr n).drop 22).take 2 = le16 1 ∧
      ((wavHeader16 sr n).drop 24).take 4 = le32 sr) ∧
    (∀ (audio : List (UInt8 × UInt8 × UInt8 × UInt8)) (sr : Nat),
      ((to_wav_bytes audio sr).drop 20).take 2 = le16 3 ∧
      ((to_wav_bytes audio sr).drop 34).take 2 = le16 32) := by
  refine ⟨?_, ?_, ?_, ?_⟩
  · intro samples sr h
    simp [save, h]
  · intro samples sr i hi
    have hdrop : (wav16Bytes samples sr).drop (44 + 2 * i) =
        ((samples.flatMap fun s => le16 (sampleToI16 s)).drop (2 * i)) := by
      have := wavHeader16_length sr samples.length
      simp [wav16Bytes, List.drop_append_eq_append_drop, this]
    rw [hdrop, flatMap_le16_slice samples i hi]
    rfl
  · intro sr n
    refine ⟨wavHeader16_length sr n, ?_, ?_, ?_⟩ <;>
      simp [wavHeader16, tagRIFF, tagWAVE, tagFmt, tagData, le32, le16]
  · intro audio sr
    constructor <;>
      simp [to_wav_bytes, tagRIFF, tagWAVE, tagFmt, tagData, le32, le16]

/-- Witness for the amended C8 at the spec's own test vector
[0.0, 0.5, -1.0] at 24000 Hz: save produces the full byte stream and
the sample at index 1 carries the truncated value's bytes. -/
theorem wav_encoding_properties_witness :
    ([(0 : Rat), 1/2, -1] ≠ []) ∧ (1 < ([(0 : Rat), 1/2, -1]).length) ∧
    save [(0 : Rat), 1/2, -1] 24000 = some (wav16Bytes [(0 : Rat), 1/2, -1] 24000) ∧
    (((wav16Bytes [(0 : Rat), 1/2, -1] 24000).drop (44 + 2 * 1)).take 2) =
      le16 (i16SatCast (([(0 : Rat), 1/2, -1]).get ⟨1, by norm_num⟩ * 32767)) :=
  ⟨by simp, by norm_num,
    wav_encoding_properties.1 [(0 : Rat), 1/2, -1] 24000 (by simp),
    wav_encoding_properties.2.1 [(0 : Rat), 1/2, -1] 24000 1 (by norm_num)⟩

/-- Embedding of PromptProcessor::extract_audio_from_tokens
(src/prompt_processor.rs lines 127-135): order-preserving filter of the
token stream through the audio-token map. -/
def extract_audio_from_tokens (m : List (Int × Int)) (tokens : List Int) : List Int :=
  tokens.filterMap (lookupMap m)

/-- ModelOutput of src/interface.rs lines 18-21 (waveform samples as
exact rationals). -/
structure InterfaceModelOutput where
  audio : List Rat
  sr : Nat
deriving DecidableEq

/-- Embedding of InterfaceGGUF::get_audio (src/interface.rs lines
95-105): extract the audio codes; when none are found, log and return
an empty waveform WITHOUT calling the decoder; otherwise reshape to one
row and call the external decoder `decodeFn` (AudioCodec::decode).  The
Bool records whether the decoder engine was invoked. -/
def get_audio (m : List (Int × Int))
    (decodeFn : List Int → Except String (List Rat)) (tokens : List Int) :
    Except String (List Rat) × Bool :=
  let output := extract_audio_from_tokens m tokens
  if output.isEmpty then (.ok [], false)
  else
    match decodeFn output with
    | .ok w => (.ok w, true)
    | .error e => (.error e, true)

/-- The synthesis tail of InterfaceGGUF::generate (src/interface.rs
lines 199-204): wrap get_audio's waveform into a ModelOutput carrying
audio_codec.get_sr() as the sample rate. -/
def synthesize (m : List (Int × Int))
    (decodeFn : List Int → Except String (List Rat)) (codecSr : Nat)
    (tokens : List Int) : Except String InterfaceModelOutput × Bool :=
  match get_audio m decodeFn tokens with
  | (.ok w, called) => (.ok { audio := w, sr := codecSr }, called)
  | (.error e, called) => (.error e, called)

/-- Claim C9: when audio-token extraction yields an empty code list,
synthesis returns Ok with an empty waveform and the codec sample rate
unchanged, and the audio-decoder engine is never invoked — no error is
reported. -/
theorem synthesize_empty_no_decoder
    (m : List (Int × Int)) (decodeFn : List Int → Except String (List Rat))
    (codecSr : Nat) (tokens : List Int)
    (h : extract_audio_from_tokens m tokens = []) :
    synthesize m decodeFn codecSr tokens =
      (.ok { audio := [], sr := codecSr }, false) := by
  simp [synthesize, get_audio, h]

/-- Witness for C9: a token stream none of whose ids are audio tokens
under a concrete one-entry map. -/
theorem synthesize_empty_no_decoder_witness :
    extract_audio_from_tokens [(5, 0)] [1, 2, 3] = [] ∧
    synthesize [(5, 0)] (fun _ => .ok []) 24000 [1, 2, 3] =
      (.ok { audio := [], sr := 24000 }, false) :=
  ⟨by decide,
    synthesize_empty_no_decoder [(5, 0)] (fun _ => .ok []) 24000 [1, 2, 3] (by decide)⟩

/-- All lowercase mapping of a character list (Rust
String::to_lowercase on the ASCII fragment). -/
def lowerChars (s : List Char) : List Char := s.map asciiLower

/-- Rust str::trim on a character list: drop leading and trailing
whitespace (Char.isWhitespace covers the ASCII whitespace relevant to
the registry keys). -/
def trimChars (s : List Char) : List Char :=
  (((s.dropWhile Char.isWhitespace).reverse).dropWhile Char.isWhitespace).reverse

/-- The key normalization both speaker-lookup functions apply to their
arguments: `x.to_lowercase().trim().to_string()` (src/interface.rs
lines 114-115 and 208-209). -/
def normalizeKey (s : String) : String := String.mk (trimChars (lowerChars s.data))

/-- Key sets of the DEFAULT_SPEAKERS registry
(src/default_speakers.rs): language → speaker names.  The JSON values
live in bundled asset files outside the generation source and are
abstracted away where needed. -/
def default_speakers : List (String × List String) :=
  [("en", ["male_1", "male_2", "male_3", "male_4", "female_1", "female_2"]),
   ("ja", ["male_1", "female_1", "female_2", "female_3"]),
   ("ko", ["male_1", "male_2", "female_1", "female_2"]),
   ("zh", ["male_1", "female_1"])]

/-- Embedding of InterfaceGGUF::validate_speaker (src/interface.rs
lines 207-221): lowercase+trim both arguments, then check the registry,
failing with a message naming the missing key. -/
def validate_speaker (language speaker : String) : Except String Bool :=
  let l := normalizeKey language
  let s := normalizeKey speaker
  match default_speakers.lookup l with
  | none => .error ("Language " ++ l ++ " not found")
  | some speakers =>
    if speakers.contains s then .ok true
    else .error ("Speaker " ++ s ++ " not found for language " ++ l)

/-- Embedding of InterfaceGGUF::load_default_speaker (src/interface.rs
lines 113-147).  External pieces are parameters: `readFile` models
load_speaker (file read + JSON parse), `speakerPath` models
`DEFAULT_SPEAKERS[language][name].as_str()` over the bundled JSON
values, and `availLangs`/`availSpeakers` model the Debug-formatted key
listings interpolated into the error messages (HashMap iteration order
is fixed per process). -/
def load_default_speaker {α : Type} (readFile : String → Except String α)
    (speakerPath : String → String → Option String)
    (availLangs : String) (availSpeakers : String → String)
    (configLanguage name : String) : Except String α :=
  let n := normalizeKey name
  let l := normalizeKey configLanguage
  match default_speakers.lookup l with
  | none => .error ("Speaker for language " ++ l ++
      " not found. Available languages: " ++ availLangs)
  | some speakers =>
    if ¬ speakers.contains n then
      .error ("Speaker '" ++ n ++ "' not found for language '" ++ l ++
        "'. Available speakers: " ++ availSpeakers l)
    else
      match speakerPath l n with
      | none => .error ("Invalid speaker path format for " ++ n)
      | some p => readFile p

theorem char_toNat_ofNat {n : Nat} (h : n < 55296) : (Char.ofNat n).toNat = n := by
  have hv : n.isValidChar := Or.inl h
  rw [Char.ofNat, dif_pos hv]
  rfl

theorem asciiLower_eq_of_upper {c : Char} (h : 65 ≤ c.toNat ∧ c.toNat ≤ 90) :
    asciiLower c = Char.ofNat (c.toNat + 32) := if_pos h

theorem asciiLower_eq_self_of_not_upper {c : Char}
    (h : ¬ (65 ≤ c.toNat ∧ c.toNat ≤ 90)) : asciiLower c = c := if_neg h

theorem asciiLower_toNat_of_upper {c : Char} (h : 65 ≤ c.toNat ∧ c.toNat ≤ 90) :
    (asciiLower c).toNat = c.toNat + 32 := by
  rw [asciiLower_eq_of_upper h]
  exact char_toNat_ofNat (by omega)

theorem asciiLower_idem (c : Char) : asciiLower (asciiLower c) = asciiLower c := by
  by_cases h : 65 ≤ c.toNat ∧ c.toNat ≤ 90
  · have ht := asciiLower_toNat_of_upper h
    exact asciiLower_eq_self_of_not_upper (by rw [ht]; omega)
  · rw [asciiLower_eq_self_of_not_upper h, asciiLower_eq_self_of_not_upper h]

theorem char_eq_iff_toNat (a b : Char) : a = b ↔ a.toNat = b.toNat :=
  ⟨fun h => by rw [h], fun h => Char.ext (UInt32.ext h)⟩

theorem isWhitespace_iff_toNat (c : Char) :
    c.isWhitespace = true ↔
      (c.toNat = 32 ∨ c.toNat = 9 ∨ c.toNat = 13 ∨ c.toNat = 10) := by
  unfold Char.isWhitespace
  simp only [Bool.or_eq_true, decide_eq_true_eq]
  rw [char_eq_iff_toNat, char_eq_iff_toNat, char_eq_iff_toNat, char_eq_iff_toNat]
  rw [show (' ').toNat = 32 from rfl, show ('\t').toNat = 9 from rfl,
    show ('\r').toNat = 13 from rfl, show ('\n').toNat = 10 from rfl]
  tauto

theorem isWhitespace_asciiLower (c : Char) :
    (asciiLower c).isWhitespace = c.isWhitespace := by
  by_cases h : 65 ≤ c.toNat ∧ c.toNat ≤ 90
  · have ht := asciiLower_toNat_of_upper h
    have h1 : c.isWhitespace = false := by
      cases hw : c.isWhitespace
      · rfl
      · have := (isWhitespace_iff_toNat c).mp hw
        omega
    have h2 : (asciiLower c).isWhitespace = false := by
      cases hw : (asciiLower c).isWhitespace
      · rfl
      · have := (isWhitespace_iff_toNat (asciiLower c)).mp hw
        omega
    rw [h1, h2]
  · rw [asciiLower_eq_self_of_not_upper h]

theorem lowerChars_lowerChars (s : List Char) :
    lowerChars (lowerChars s) = lowerChars s := by
  simp only [lowerChars, List.map_map]
  exact List.map_congr_left fun c _ => asciiLower_idem c

theorem length_dropWhile_le_self {α : Type} (p : α → Bool) (l : List α) :
    (l.dropWhile p).length ≤ l.length := by
  induction l with
  | nil => simp
  | cons a t ih =>
    rw [List.dropWhile_cons]
    by_cases h : p a
    · rw [if_pos h]
      simp
      omega
    · rw [if_neg h]

theorem dropWhile_eq_drop_exists {α : Type} (p : α → Bool) (l : List α) :
    ∃ n, l.dropWhile p = l.drop n := by
  induction l with
  | nil => exact ⟨0, rfl⟩
  | cons a t ih =>
    by_cases h : p a
    · obtain ⟨n, hn⟩ := ih
      exact ⟨n + 1, by rw [List.dropWhile_cons, if_pos h]; exact hn⟩
    · exact ⟨0, by rw [List.dropWhile_cons, if_neg h, List.drop_zero]⟩

theorem dropWhile_take_of_eq_self {α : Type} (p : α → Bool) (l : List α)
    (h : l.dropWhile p = l) (m : Nat) : (l.take m).dropWhile p = l.take m := by
  rcases l with _ | ⟨a, t⟩
  · simp
  · have hpa : p a = false := by
      cases hp : p a
      · rfl
      · rw [List.dropWhile_cons, if_pos hp] at h
        have hle := length_dropWhile_le_self p t
        have := congrArg List.length h
        simp at this
        omega
    rcases m with _ | m
    · simp
    · rw [List.take_succ_cons, List.dropWhile_cons, if_neg (by simp [hpa])]

/-- The trailing-whitespace half of trim, as a take-prefix. -/
theorem trimBack_eq_take (s : List Char) :
    ∃ m, ((s.reverse.dropWhile Char.isWhitespace).reverse) = s.take m := by
  obtain ⟨n, hn⟩ := dropWhile_eq_drop_exists Char.isWhitespace s.reverse
  refine ⟨s.length - n, ?_⟩
  rw [hn, List.reverse_drop, List.reverse_reverse, List.length_reverse]

theorem trimChars_dropWhile (s : List Char) :
    (trimChars s).dropWhile Char.isWhitespace = trimChars s := by
  obtain ⟨m, hm⟩ := trimBack_eq_take (s.dropWhile Char.isWhitespace)
  rw [trimChars, hm]
  exact dropWhile_take_of_eq_self _ _ (List.dropWhile_idempotent _ _) m

theorem trimChars_idem (s : List Char) : trimChars (trimChars s) = trimChars s := by
  show ((((trimChars s).dropWhile Char.isWhitespace).reverse).dropWhile
      Char.isWhitespace).reverse = trimChars s
  rw [trimChars_dropWhile]
  rw [show (trimChars s).reverse =
      (s.dropWhile Char.isWhitespace).reverse.dropWhile Char.isWhitespace from by
    rw [trimChars, List.reverse_reverse]]
  rw [List.dropWhile_idempotent, trimChars]

theorem lowerChars_dropWhile (s : List Char) :
    (lowerChars s).dropWhile Char.isWhitespace =
      lowerChars (s.dropWhile Char.isWhitespace) := by
  rw [lowerChars, List.dropWhile_map]
  have : (Char.isWhitespace ∘ asciiLower) = Char.isWhitespace :=
    funext fun c => isWhitespace_asciiLower c
  rw [this, lowerChars]

theorem lowerChars_reverse (s : List Char) :
    (lowerChars s).reverse = lowerChars s.reverse := by
  simp [lowerChars]

theorem lowerChars_trimChars (s : List Char) :
    lowerChars (trimChars s) = trimChars (lowerChars s) := by
  rw [trimChars, trimChars, ← lowerChars_reverse, ← lowerChars_dropWhile,
    ← lowerChars_reverse, ← lowerChars_dropWhile]

/-- Normalizing a key that has already been normalized the claim's way
(lowercase of trim) gives the same key as normalizing the raw string:
lowercasing is idempotent and commutes with trimming, and trimming is
idempotent. -/
theorem normalizeKey_claim (s : String) :
    normalizeKey (String.mk (lowerChars (trimChars s.data))) = normalizeKey s := by
  show String.mk (trimChars (lowerChars (lowerChars (trimChars s.data)))) =
    String.mk (trimChars (lowerChars s.data))
  rw [lowerChars_lowerChars, lowerChars_trimChars, trimChars_idem]

/-- Claim C10: speaker lookup is insensitive to ASCII case and
surrounding whitespace — validate_speaker and load_default_speaker
normalize both the language and the name with lowercase+trim before
consulting the registry, so each returns the same result (including the
same error message) when its arguments are pre-normalized with
lowercase(trim(·)). -/
theorem speaker_lookup_case_whitespace_insensitive :
    (∀ language speaker : String,
      validate_speaker language speaker =
        validate_speaker (String.mk (lowerChars (trimChars language.data)))
          (String.mk (lowerChars (trimChars speaker.data)))) ∧
    (∀ (α : Type) (readFile : String → Except String α)
        (speakerPath : String → String → Option String)
        (availLangs : String) (availSpeakers : String → String)
        (configLanguage name : String),
      load_default_speaker readFile speakerPath availLangs availSpeakers
          configLanguage name =
        load_default_speaker readFile speakerPath availLangs availSpeakers
          (String.mk (lowerChars (trimChars configLanguage.data)))
          (String.mk (lowerChars (trimChars name.data)))) := by
  constructor
  · intro language speaker
    simp only [validate_speaker, normalizeKey_claim]
  · intro α readFile speakerPath availLangs availSpeakers configLanguage name
    simp only [load_default_speaker, normalizeKey_claim]

end Oute
